import Mathlib

/-!
Verification development for the mootlib repository: a shallow embedding of
the embedding cache (`mootlib/embeddings/embedding_utils.py`), the fetch
orchestrator (`mootlib/scrapers/aggregate.py`), the flexible timestamp parser
(`mootlib/scrapers/common_markets.py`), the encryption layer
(`mootlib/utils/encryption.py`) and the paginated scrapers
(`mootlib/scrapers/gjopen.py`, `mootlib/scrapers/manifold_markets.py`).

Modelling conventions:
- Python `str` is modelled as `List Char`; `str.strip()` is `pyStrip`.
- SHA-256 (`hashlib.sha256(...).hexdigest()`) is modelled as a collision-free
  content address, i.e. as the identity on the stripped text.
- Exceptions are modelled with `Except PyError`; the distinct Python exception
  classes appearing in the verified code paths are the `PyError` constructors.
- The embedding provider (an external web service) is a parameter
  `Provider : List Text → List Vec`; the well-behaved provider induced by an
  ideal embedding function `E` is `mkProvider E`.
-/

deriving instance DecidableEq for Except

namespace Mootlib

/-- Python exception classes reachable in the modelled code paths. -/
inductive PyError where
  | valueError
  | keyError
  | indexError
  | attributeError
  | invalidToken
  | encryptionKeyNotSet
  deriving DecidableEq, Repr

/-- Python strings, modelled as their character sequences. -/
abbrev Text := List Char

/-- Coerce a Lean string literal into the `Text` model. -/
def txt (s : String) : Text := s.toList

/-- Whitespace test used by Python `str.strip()`. -/
def isWS (c : Char) : Bool := c.isWhitespace

/-- Left strip: remove leading whitespace. -/
def lstrip (t : Text) : Text := t.dropWhile isWS

/-- Right strip: remove trailing whitespace. -/
def rstrip (t : Text) : Text := ((t.reverse).dropWhile isWS).reverse

/-- Python `str.strip()`: remove leading and trailing whitespace. -/
def pyStrip (t : Text) : Text := rstrip (lstrip t)

/-- Source: `compute_string_hash` — `sha256(text.strip().encode()).hexdigest()`.
SHA-256 is modelled as a collision-free content address: the stripped text
itself. -/
def compute_string_hash (t : Text) : Text := pyStrip t

/-- Embedding vectors. Source float components are modelled as integers;
only vector identity and length (dimension) matter to the claims. -/
abbrev Vec := List Int

/-- Source constant `EMBEDDING_DIM = 1024`. -/
def EMBEDDING_DIM : Nat := 1024

/-- Source constant `MAX_CHUNK_SIZE = 1024` (default `chunk_size`). -/
def MAX_CHUNK_SIZE : Nat := 1024

/-- One row of the pandas cache frame (`cache_df`), indexed by `text_hash`.
The pandas index admits duplicate keys, hence a plain row list. -/
structure CacheRow where
  text_hash : Text
  text : Text
  embedding : Vec
  deriving DecidableEq, Repr

/-- Mutable state of an `EmbeddingsCache` plus its observable effects:
the in-memory frame `cache_df`, the on-disk artifact contents `saved`
(written by `save_cache`), and the log of provider API invocations
(`openai.embeddings.create`), each recorded with the texts it was sent. -/
structure CacheState where
  cache_df : List CacheRow
  saved : List CacheRow
  calls : List (List Text)
  deriving DecidableEq, Repr

/-- A fresh cache with an empty frame, as built when neither a local nor a
remote artifact exists (`pd.DataFrame(columns=...).set_index(...)`). -/
def emptyCacheState : CacheState := ⟨[], [], []⟩

/-- Pandas `h in self.cache_df.index`. -/
def memIndex (df : List CacheRow) (h : Text) : Bool :=
  df.any (fun r => r.text_hash == h)

/-- Pandas `self.cache_df.loc[h, "embedding"]`: all rows whose index equals
`h`. With a unique key this is one scalar (a singleton here); with duplicate
keys pandas returns a Series of every matching row. -/
def locEmb (df : List CacheRow) (h : Text) : List Vec :=
  (df.filter (fun r => r.text_hash == h)).map (fun r => r.embedding)

/-- The external embedding provider: the response rows for a request body. -/
abbrev Provider := List Text → List Vec

/-- The well-behaved provider induced by an ideal embedding function `E`:
one vector per text, in request order. -/
def mkProvider (E : Text → Vec) : Provider := fun ts => ts.map E

/-- Source: `EmbeddingsCache._embed_batch`. An empty request returns an empty
array without touching the API; otherwise one API call is issued and its rows
are returned unchecked. -/
def embed_batch (p : Provider) (texts : List Text) (s : CacheState) :
    List Vec × CacheState :=
  if texts.isEmpty then ([], s)
  else (p texts, { s with calls := s.calls ++ [texts] })

/-- The chunking of `range(0, len(texts), chunk_size)`: successive slices
`texts[i : i + chunk_size]`. (For `n = 0` Python `range` would raise; the
model returns `[]`, and every theorem assumes `0 < n`.) -/
def listChunks {α : Type} : Nat → List α → List (List α)
  | _, [] => []
  | 0, _ :: _ => []
  | n + 1, a :: l =>
      (a :: l).take (n + 1) :: listChunks (n + 1) ((a :: l).drop (n + 1))
termination_by _ l => l.length
decreasing_by
  simp [List.length_drop]
  omega

/-- Source: `EmbeddingsCache._embed_texts`. One batch when the request fits in
`chunk_size`, otherwise one batch per chunk with the results stacked
(`np.vstack`) in order. -/
def embed_texts (p : Provider) (chunk_size : Nat) (texts : List Text)
    (s : CacheState) : List Vec × CacheState :=
  if texts.isEmpty then ([], s)
  else if texts.length ≤ chunk_size then embed_batch p texts s
  else
    (listChunks chunk_size texts).foldl
      (fun acc chunk =>
        let r := embed_batch p chunk acc.2
        (acc.1 ++ r.1, r.2))
      ([], s)

/-- The trailing comprehension of `get_embeddings`, evaluated left to right:
a cache hit yields `self.cache_df.loc[h, "embedding"]` (every matching row);
a miss computes `self._embed_texts([t])[0]` on the fly, which raises
`IndexError` if the provider returned no rows. -/
def gatherRows (p : Provider) (chunk_size : Nat) (df : List CacheRow) :
    List (Text × Text) → CacheState → Except PyError (List (List Vec)) × CacheState
  | [], s => (.ok [], s)
  | (h, t) :: rest, s =>
    if memIndex df h then
      match gatherRows p chunk_size df rest s with
      | (.ok out, s1) => (.ok (locEmb df h :: out), s1)
      | (.error e, s1) => (.error e, s1)
    else
      match embed_texts p chunk_size [t] s with
      | ([], s1) => (.error .indexError, s1)
      | (v :: _, s1) =>
        match gatherRows p chunk_size df rest s1 with
        | (.ok out, s2) => (.ok ([v] :: out), s2)
        | (.error e, s2) => (.error e, s2)

/-- Source: `EmbeddingsCache.get_embeddings`. Texts are stripped and hashed;
uncached texts are embedded (when `update_cache`) and appended to the frame,
which `save_cache` then rewrites to disk; finally one entry per input text is
collected from the frame in input order. Constructing the `new_entries`
DataFrame raises `ValueError` when the provider returned a row count different
from `len(texts_to_embed)` (pandas: "All arrays must be of the same length"). -/
def get_embeddings (p : Provider) (chunk_size : Nat) (texts0 : List Text)
    (update_cache : Bool) (s0 : CacheState) :
    Except PyError (List (List Vec)) × CacheState :=
  let texts := texts0.map pyStrip
  let text_hashes := texts.map compute_string_hash
  let texts_to_embed :=
    texts.filter (fun t => !(memIndex s0.cache_df (compute_string_hash t)))
  if !texts_to_embed.isEmpty && update_cache then
    let r := embed_texts p chunk_size texts_to_embed s0
    let new_embeddings := r.1
    let s1 := r.2
    if new_embeddings.length = texts_to_embed.length then
      let new_entries := (texts_to_embed.zip new_embeddings).map
        (fun te => CacheRow.mk (compute_string_hash te.1) te.1 te.2)
      let df := s1.cache_df ++ new_entries
      let s2 : CacheState := { s1 with cache_df := df, saved := df }
      gatherRows p chunk_size s2.cache_df (text_hashes.zip texts) s2
    else (.error .valueError, s1)
  else
    gatherRows p chunk_size s0.cache_df (text_hashes.zip texts) s0

/-- The uncached stripped texts of a request, as computed by
`get_embeddings` against a frame `df`. -/
def missesOf (df : List CacheRow) (texts0 : List Text) : List Text :=
  (texts0.map pyStrip).filter (fun t => !(memIndex df (compute_string_hash t)))

/-- The provider request bodies `_embed_texts` issues for a miss list. -/
def embedCalls (chunk_size : Nat) (ts : List Text) : List (List Text) :=
  if ts.isEmpty then []
  else if ts.length ≤ chunk_size then [ts]
  else listChunks chunk_size ts

/-- The rows `get_embeddings` appends to the frame for a miss list. -/
def newRowsOf (E : Text → Vec) (ts : List Text) : List CacheRow :=
  ts.map (fun t => CacheRow.mk (compute_string_hash t) t (E t))

/-- A row written by the cache itself: indexed by its own stripped text and
holding that text's ideal embedding. -/
def CleanRow (E : Text → Vec) (r : CacheRow) : Prop :=
  r.text_hash = r.text ∧ pyStrip r.text = r.text ∧ r.embedding = E r.text

/-- A consistent cache frame: unique index and every row self-describing.
This is the invariant an `EmbeddingsCache` maintains as long as no uncached
text is ever repeated inside one request. -/
def Clean (E : Text → Vec) (df : List CacheRow) : Prop :=
  (df.map (fun r => r.text_hash)).Nodup ∧ ∀ r ∈ df, CleanRow E r

/-! ### Orchestrator (`mootlib/scrapers/aggregate.py`) -/

/-- Source: `PooledMarket` (`common_markets.py`). Float fields are modelled
as integers and timestamps as epoch integers; `raw_market_data` is omitted
because the dataclass declares it `compare=False` and both persistence paths
(`_save_markets_to_cache`, `_create_markets_dataframe`) pop it first. -/
structure PooledMarket where
  id : Text
  question : Text
  outcomes : List Text
  outcome_probabilities : List (Option Int)
  formatted_outcomes : Text
  url : Text
  published_at : Option Int
  source_platform : Text
  volume : Option Int := none
  n_forecasters : Option Nat := none
  comments_count : Option Nat := none
  original_market_type : Option Text := none
  is_resolved : Option Bool := none
  deriving DecidableEq, Repr

/-- One adapter as the orchestrator's task wrapper sees it: the platform
name derived from the class name, and the outcome of the awaited
`async with scraper: ... get_pooled_markets(...)` body — records on success,
an unhandled exception otherwise. -/
abbrev AdapterOutcome := Text × Except PyError (List PooledMarket)

/-- Source: `_fetch_platform_markets`. The failure boundary: any exception
from session handling, fetch or conversion is converted into an empty result
tagged with the platform name. -/
def fetch_platform_markets (a : AdapterOutcome) : Text × List PooledMarket :=
  match a.2 with
  | .ok ms => (a.1, ms)
  | .error _ => (a.1, [])

/-- Source: `_fetch_all_markets`. `asyncio.gather` is modelled as in-order
collection of every task's result; per-adapter lists are concatenated. -/
def fetch_all_markets (adapters : List AdapterOutcome) : List PooledMarket :=
  (adapters.map fetch_platform_markets).foldl (fun acc r => acc ++ r.2) []

/-- The platform names of the five scrapers `_fetch_all_markets` registers
(class name with the `Scraper` suffix removed). -/
def scraperPlatforms : List Text :=
  [txt "GoodJudgmentOpen", txt "Manifold", txt "PolymarketGamma",
   txt "PredictIt", txt "Metaculus"]

/-- Column names of the frame built from non-empty `PooledMarket` dicts
(every dataclass field except the popped `raw_market_data`). -/
def marketCols : List Text :=
  [txt "id", txt "question", txt "outcomes", txt "outcome_probabilities",
   txt "formatted_outcomes", txt "url", txt "published_at",
   txt "source_platform", txt "volume", txt "n_forecasters",
   txt "comments_count", txt "original_market_type", txt "is_resolved"]

/-- A pandas DataFrame of market rows: its column index and its rows. -/
structure PdFrame where
  cols : List Text
  rows : List PooledMarket
  deriving DecidableEq, Repr

/-- `pd.DataFrame(market_dicts)`: an empty dict list yields a frame with no
columns at all; otherwise every market dict contributes the same keys. -/
def pdDataFrameOfMarkets (markets : List PooledMarket) : PdFrame :=
  ⟨if markets.isEmpty then [] else marketCols, markets⟩

/-- `drop_duplicates(subset=["question"])` keep-first row dedup. -/
def dedupByQuestion (rows : List PooledMarket) : List PooledMarket :=
  rows.foldl
    (fun acc m =>
      if (acc.map (fun x => x.question)).contains m.question then acc
      else acc ++ [m])
    []

/-- `all_markets_df.drop_duplicates(subset=["question"])`: pandas raises
`KeyError` when a subset column is absent from the frame. -/
def drop_duplicates_question (f : PdFrame) : Except PyError PdFrame :=
  if f.cols.contains (txt "question") then .ok ⟨f.cols, dedupByQuestion f.rows⟩
  else .error .keyError

/-- Descending order on publication timestamps with missing values last,
as `sort_values("published_at", ascending=False)` orders `NaT`. -/
def pubGE (a b : PooledMarket) : Bool :=
  match a.published_at, b.published_at with
  | some x, some y => y ≤ x
  | some _, none => true
  | none, some _ => false
  | none, none => true

/-- Source: `_create_markets_dataframe`. Builds the frame, dedups by question
text, then (inside a swallowed `try`) normalizes and sorts `published_at`
descending. Timestamps are already epoch integers in the model, so the
`pd.to_datetime` / `tz_localize` steps succeed and amount to the sort. -/
def create_markets_dataframe (markets : List PooledMarket) :
    Except PyError PdFrame :=
  let f := pdDataFrameOfMarkets markets
  match drop_duplicates_question f with
  | .error e => .error e
  | .ok f1 =>
    if f1.cols.contains (txt "published_at") then
      .ok ⟨f1.cols, f1.rows.mergeSort pubGE⟩
    else .ok f1

/-- Source: `fetch_markets_df`, over an arbitrary adapter outcome list. -/
def fetch_markets_df (adapters : List AdapterOutcome) : Except PyError PdFrame :=
  create_markets_dataframe (fetch_all_markets adapters)

/-- The run in which every registered adapter raised. -/
def allFailedAdapters (e : PyError) : List AdapterOutcome :=
  scraperPlatforms.map (fun n => (n, .error e))

/-! ### Encrypted store (`mootlib/utils/encryption.py`) -/

/-- Fernet keys. -/
abbrev FernetKey := Nat

/-- Byte strings. -/
abbrev Bytes := List Nat

/-- A Fernet token: version/timestamp header, HMAC, ciphertext. The
authenticated encryption is idealized: the HMAC is modelled as a perfect MAC
(the key/payload pair itself), so MAC verification succeeds exactly when the
token is the untampered output of `encrypt` under the same key. -/
structure FernetToken (α : Type) where
  timestamp : Nat
  mac : FernetKey × α
  payload : α
  deriving DecidableEq, Repr

/-- `Fernet(key).encrypt(data)`; `timestamp` stands for the random IV and
embedded creation time, which authentication ignores. -/
def fernetEncrypt {α : Type} (k : FernetKey) (ts : Nat) (x : α) :
    FernetToken α := ⟨ts, (k, x), x⟩

/-- `Fernet(key).decrypt(token)`: verify the MAC, then reveal the payload;
a wrong key or a tampered token raises `InvalidToken`. -/
def fernetDecrypt {α : Type} [DecidableEq α] (k : FernetKey)
    (t : FernetToken α) : Except PyError α :=
  if t.mac = (k, t.payload) then .ok t.payload else .error .invalidToken

/-- Observable file-system effects of the encryption helpers. -/
inductive FileEvent where
  | readFile (p : Text)
  | writeFile (p : Text)
  deriving DecidableEq, Repr

/-- Source: `encrypt_file`. Reads the input file, then fetches the key
(`get_encryption_key` raises `EncryptionKeyNotSetError` when
`MOOTLIB_ENCRYPTION_KEY` is absent), encrypts and writes. `env` is the
environment variable, `content` what the read returns. -/
def encrypt_file (env : Option FernetKey) (ts : Nat) (content : Bytes)
    (input_file output_file : Text) :
    Except PyError (FernetToken Bytes) × List FileEvent :=
  let ev := [FileEvent.readFile input_file]
  match env with
  | none => (.error .encryptionKeyNotSet, ev)
  | some k =>
    (.ok (fernetEncrypt k ts content), ev ++ [FileEvent.writeFile output_file])

/-- Source: `decrypt_file`. Reads the ciphertext, fetches the key, decrypts,
writes the plaintext. -/
def decrypt_file (env : Option FernetKey) (tok : FernetToken Bytes)
    (input_file output_file : Text) : Except PyError Bytes × List FileEvent :=
  let ev := [FileEvent.readFile input_file]
  match env with
  | none => (.error .encryptionKeyNotSet, ev)
  | some k =>
    match fernetDecrypt k tok with
    | .ok data => (.ok data, ev ++ [FileEvent.writeFile output_file])
    | .error e => (.error e, ev)

/-- Source: the `DataFrameFormat` literal type. -/
inductive DataFrameFormat where
  | parquet
  | csv
  deriving DecidableEq, Repr

/-- One cell of a pandas DataFrame as the encryption layer sees it: a
string, an integer, a datetime (kept abstract as its rendered text), a
list-valued object cell (the shape of the repository's `outcomes` column),
or a missing value (`None`/`NaN`). -/
inductive Cell where
  | s (v : Text)
  | i (n : Int)
  | dt (iso : Text)
  | lst (l : List Text)
  | missing
  deriving DecidableEq, Repr

/-- A pandas DataFrame at cell granularity: column names and cell rows. -/
structure DfTable where
  cols : List Text
  rows : List (List Cell)
  deriving DecidableEq, Repr

/-- The single-quote character, used by Python `repr` of a string list. -/
def sq : Char := Char.ofNat 39

/-- Python `str()` of a list of strings, which is what `df.to_csv` writes
for a list-valued object cell. -/
def pyListRepr (l : List Text) : Text :=
  '[' :: (List.intercalate [',', ' ']
    (l.map (fun t => sq :: (t ++ [sq])))) ++ [']']

/-- The text `df.to_csv` writes for one cell: strings verbatim, integers in
decimal, datetimes as their rendered text, list cells as their Python repr,
missing values as an empty field. -/
def csvRender : Cell → Text
  | .s v => v
  | .i n => (toString n).toList
  | .dt iso => iso
  | .lst l => pyListRepr l
  | .missing => []

/-- Whether a csv field looks like an integer literal to pandas dtype
inference. -/
def isIntLit (v : Text) : Bool :=
  match v with
  | [] => false
  | '-' :: rest => !rest.isEmpty && rest.all (fun c => c.isDigit)
  | _ => v.all (fun c => c.isDigit)

/-- Decimal value of a digit character. -/
def digitVal (c : Char) : Nat := c.toNat - ('0').toNat

/-- The integer a csv field denotes. -/
def intOfText (v : Text) : Int :=
  match v with
  | '-' :: rest => -(rest.foldl (fun a c => a * 10 + digitVal c) 0 : Nat)
  | _ => (v.foldl (fun a c => a * 10 + digitVal c) 0 : Nat)

/-- The cell `pd.read_csv` reconstructs from one field: an empty field
becomes `NaN`, an integer literal becomes an integer, everything else comes
back as a plain string — so datetimes come back as strings and list cells
come back as their repr, not as lists. -/
def csvParse (v : Text) : Cell :=
  if v.isEmpty then .missing
  else if isIntLit v then .i (intOfText v)
  else .s v

/-- A cell that survives the csv write/read cycle unchanged. Nonempty,
non-numeric-looking string cells and in-range integers are stable; list
cells, datetimes, empty strings and missing values are not (or collapse). -/
def CsvStable (c : Cell) : Prop := csvParse (csvRender c) = c

instance (c : Cell) : Decidable (CsvStable c) := by
  unfold CsvStable
  infer_instance

/-- The serialized in-memory buffer `encrypt_dataframe` encrypts. Parquet
(via pyarrow) is a typed columnar format and round-trips the table exactly,
list columns, datetimes and missing values included; csv is the rendered
text grid. -/
inductive DfBuffer where
  | parquet (t : DfTable)
  | csv (cols : List Text) (rows : List (List Text))
  deriving DecidableEq, Repr

/-- `df.to_parquet(buffer)` / `df.to_csv(buffer, index=False)`. -/
def serialize_df (format : DataFrameFormat) (df : DfTable) : DfBuffer :=
  match format with
  | .parquet => .parquet df
  | .csv => .csv df.cols (df.rows.map (fun r => r.map csvRender))

/-- `pd.read_parquet` / `pd.read_csv` on the decrypted buffer: parquet
restores the table exactly; csv re-parses every field with dtype inference
(`csvParse`); reading a buffer in the other format's reader fails. -/
def deserialize_df (format : DataFrameFormat) (buf : DfBuffer) :
    Except PyError DfTable :=
  match format, buf with
  | .parquet, .parquet t => .ok t
  | .csv, .csv cols rows => .ok ⟨cols, rows.map (fun r => r.map csvParse)⟩
  | _, _ => .error .valueError

/-- Source: `encrypt_dataframe`. Serializes in memory (no file I/O), then
fetches the key, encrypts, and writes the token. -/
def encrypt_dataframe (env : Option FernetKey) (ts : Nat) (df : DfTable)
    (output_file : Text) (format : DataFrameFormat) :
    Except PyError (FernetToken DfBuffer) × List FileEvent :=
  match env with
  | none => (.error .encryptionKeyNotSet, [])
  | some k =>
    (.ok (fernetEncrypt k ts (serialize_df format df)),
     [FileEvent.writeFile output_file])

/-- Source: `decrypt_to_df`. A path input is read first; a bytes input is
used directly. Then the key is fetched, the token decrypted, and the buffer
deserialized in the requested format. -/
def decrypt_to_df (env : Option FernetKey) (tok : FernetToken DfBuffer)
    (input_file : Option Text) (format : DataFrameFormat) :
    Except PyError DfTable × List FileEvent :=
  let ev := match input_file with
    | some p => [FileEvent.readFile p]
    | none => []
  match env with
  | none => (.error .encryptionKeyNotSet, ev)
  | some k =>
    match fernetDecrypt k tok with
    | .ok buf => (deserialize_df format buf, ev)
    | .error e => (.error e, ev)

/-! ### Flexible timestamp parser (`mootlib/scrapers/common_markets.py`) -/

/-- A `datetime.datetime` value: an abstract instant plus whether
`tzinfo=UTC` has been attached. -/
structure PyDatetime where
  stamp : Int
  utc : Bool
  deriving DecidableEq, Repr

/-- `dt_obj.replace(tzinfo=UTC)`. -/
def setUTC (d : PyDatetime) : PyDatetime := { d with utc := true }

/-- The declared input type of `parse_datetime_flexible`:
`str | datetime | None`. -/
inductive DtInput where
  | str (s : Text)
  | dt (d : PyDatetime)
  | pyNone
  deriving DecidableEq, Repr

/-- `dt_str.endswith("Z")`. -/
def endsWithZ (s : Text) : Bool := s.getLast? == some 'Z'

/-- Source: `BaseMarket.parse_datetime_flexible`. The four `datetime`-library
parsers are parameters returning `none` where the library raises
`ValueError`: `strptimeZfrac` is `strptime(s, "%Y-%m-%dT%H:%M:%S.%fZ")`,
`strptimeZ` is `strptime(s, "%Y-%m-%dT%H:%M:%SZ")`, `fromisoformat` is
`datetime.fromisoformat`, `strptimeSpace` is
`strptime(s, "%Y-%m-%d %H:%M:%S")`. A `datetime` input is returned as is.
A `None` input reaches `dt_str.endswith("Z")` inside the `try`, which raises
`AttributeError` — not caught by `except ValueError` — so it propagates. -/
def parse_datetime_flexible
    (strptimeZfrac strptimeZ fromisoformat strptimeSpace :
      Text → Option PyDatetime) :
    DtInput → Except PyError (Option PyDatetime)
  | .dt d => .ok (some d)
  | .pyNone => .error .attributeError
  | .str s =>
    let fallback : Except PyError (Option PyDatetime) := .ok (strptimeSpace s)
    if endsWithZ s then
      if s.contains '.' then
        match strptimeZfrac s with
        | some d => .ok (some (setUTC d))
        | none => fallback
      else
        match strptimeZ s with
        | some d => .ok (some (setUTC d))
        | none => fallback
    else if (s.drop 10).contains '+' || (s.drop 10).contains '-' then
      match fromisoformat s with
      | some d => .ok (some d)
      | none => fallback
    else
      match fromisoformat s with
      | some d => .ok (some d)
      | none => fallback

/-! ### Paginated scrapers (`gjopen.py`, `manifold_markets.py`) -/

/-- Source constant `GoodJudgmentOpenScraper.MAX_PAGES = 20`. -/
def GJ_MAX_PAGES : Nat := 20

/-- Source constant `VALID_MARKETS_FILTER.min_n_forecasters = 40`. -/
def GJ_MIN_FORECASTERS : Nat := 40

/-- A `GJOpenMarket`, restricted to the fields `fetch_markets` consults. -/
structure GJOpenMarket where
  id : Text
  question : Text
  predictors_count : Nat
  deriving DecidableEq, Repr

/-- The inner per-link loop of `GoodJudgmentOpenScraper.fetch_markets`:
fetch each linked market (`none` covers both a `None` result and a swallowed
per-link exception) and keep those whose question is not already in the
accumulated data. The pacing sleeps have no observable effect here. -/
def gjPageMarkets (fetchMarket : Text → Option GJOpenMarket)
    (links : List Text) (acc : List GJOpenMarket) : List GJOpenMarket :=
  links.foldl
    (fun ms link =>
      match fetchMarket link with
      | some m =>
        if (acc.map (fun x => x.question)).contains m.question then ms
        else ms ++ [m]
      | none => ms)
    []

/-- The page loop of `GoodJudgmentOpenScraper.fetch_markets` over the
remaining page numbers. Returns the markets plus the number of page fetches
(`_fetch_question_links_for_page` calls) performed. Breaks on: a page with
no links, a page with links but zero new markets, or a page whose new
markets all fall below the forecaster floor. -/
def gjLoop (fetchLinks : Nat → List Text)
    (fetchMarket : Text → Option GJOpenMarket) (minF : Nat) :
    List Nat → List GJOpenMarket → List GJOpenMarket × Nat
  | [], acc => (acc, 0)
  | p :: rest, acc =>
    let links := fetchLinks p
    if links.isEmpty then (acc, 1)
    else
      let page := gjPageMarkets fetchMarket links acc
      if page.isEmpty then (acc, 1)
      else
        let acc2 := acc ++ page
        if page.all (fun m => m.predictors_count < minF) then (acc2, 1)
        else
          let r := gjLoop fetchLinks fetchMarket minF rest acc2
          (r.1, r.2 + 1)

/-- Source: `GoodJudgmentOpenScraper.fetch_markets` — pages
`range(1, MAX_PAGES + 1)`. -/
def gjopen_fetch_markets (fetchLinks : Nat → List Text)
    (fetchMarket : Text → Option GJOpenMarket) (min_n_forecasters : Nat) :
    List GJOpenMarket × Nat :=
  gjLoop fetchLinks fetchMarket min_n_forecasters
    (List.range' 1 GJ_MAX_PAGES) []

/-- Source constant `DEFAULT_MARKET_FILTER.min_n_forecasters = 50`
(`manifold_markets.py`). -/
def MANIFOLD_MIN_FORECASTERS : Nat := 50

/-- A market summary row returned by the Manifold list endpoint. -/
structure RawManifoldMarket where
  id : Text
  isResolved : Bool
  uniqueBettorCount : Nat
  volume : Int
  outcomeType : Text
  deriving DecidableEq, Repr

/-- A full `ManifoldMarket`, restricted to the fields the final filter
consults. -/
structure ManifoldMarket where
  id : Text
  question : Text
  unique_bettor_count : Nat
  volume : Int
  resolution : Option Text
  deriving DecidableEq, Repr

/-- The `while True` pagination of `ManifoldScraper.fetch_markets`:
`batches` lists the raw pages the API serves to the successive
`before=<last id>` cursors (the cursor always advances off a non-empty
batch, so call order indexes it); after the list is exhausted the API
returns an empty page. `_fetch_raw_markets_list` drops resolved rows when
`only_open`; the loop breaks exactly on an empty (filtered) batch. Returns
the accumulated rows and the number of page requests issued. -/
def mfLoop (only_open : Bool) :
    List (List RawManifoldMarket) → List RawManifoldMarket × Nat
  | [] => ([], 1)
  | b :: rest =>
    let batch := if only_open then b.filter (fun m => !m.isResolved) else b
    if batch.isEmpty then ([], 1)
    else
      let r := mfLoop only_open rest
      (batch ++ r.1, r.2 + 1)

/-- The summary-level filter applied after pagination completes. -/
def mfSummaryKeep (only_open : Bool) (minB : Nat) (minV : Int)
    (m : RawManifoldMarket) : Bool :=
  !((only_open && m.isResolved) || decide (m.uniqueBettorCount < minB) ||
    decide (m.volume < minV) ||
    !((m.outcomeType == txt "BINARY") || (m.outcomeType == txt "MULTIPLE_CHOICE")))

/-- The final per-market filter of the detail phase. Python truthiness:
`market_obj.resolution and ...` skips only a non-empty resolution other
than `"MKT"`. -/
def mfDetailKeep (only_open : Bool) (minB : Nat) (minV : Int)
    (m : ManifoldMarket) : Bool :=
  let resolvedSkip :=
    match m.resolution with
    | some r => only_open && !r.isEmpty && !(r == txt "MKT")
    | none => false
  !resolvedSkip && decide (minB ≤ m.unique_bettor_count) &&
    decide (minV ≤ m.volume)

/-- Source: `ManifoldScraper.fetch_markets`. Paginate everything, filter the
summaries, fetch details (`details` returns `none` for an exception, a falsy
response, or a `_create_market` failure), filter again. The participation
floor plays no part in pagination. Returns the processed markets and the
number of page requests. -/
def manifold_fetch_markets (batches : List (List RawManifoldMarket))
    (details : Text → Option ManifoldMarket) (only_open : Bool)
    (minB : Nat) (minV : Int) : List ManifoldMarket × Nat :=
  let r := mfLoop only_open batches
  if r.1.isEmpty then ([], r.2)
  else
    let ids := (r.1.filter (mfSummaryKeep only_open minB minV)).map
      (fun m => m.id)
    (ids.filterMap (fun i =>
      match details i with
      | none => none
      | some m =>
        if mfDetailKeep only_open minB minV m then some m else none), r.2)

/-- A concrete canonical record for closed instances. -/
def sampleMarket : PooledMarket :=
  { id := txt "manifold_1", question := txt "Will X happen?",
    outcomes := [txt "Yes", txt "No"],
    outcome_probabilities := [some 60, some 40],
    formatted_outcomes := txt "Yes: 60.0%; No: 40.0%",
    url := txt "https://example.org/m1", published_at := some 100,
    source_platform := txt "Manifold" }

/-- A concrete table with a list-valued cell, shaped like the repository's
`outcomes` column. -/
def sampleListTable : DfTable :=
  ⟨[txt "question", txt "outcomes"],
   [[Cell.s (txt "Will X happen?"), Cell.lst [txt "Yes", txt "No"]]]⟩

/-- A concrete table whose cells all survive the csv write/read cycle. -/
def sampleCsvTable : DfTable :=
  ⟨[txt "question", txt "n_forecasters"],
   [[Cell.s (txt "Will X happen?"), Cell.i 42]]⟩

/-- A concrete below-floor Manifold summary row. -/
def lowRawA : RawManifoldMarket :=
  ⟨txt "m1", false, 1, 0, txt "BINARY"⟩

/-- A second concrete below-floor Manifold summary row. -/
def lowRawB : RawManifoldMarket :=
  ⟨txt "m2", false, 1, 0, txt "BINARY"⟩

/-! ### Theorems -/

/-- Chunking at a positive size loses no element: the slices concatenate
back to the original request. -/
theorem listChunks_join {α : Type} (n : Nat) (l : List α) (h : 0 < n) :
    (listChunks n l).flatten = l := by
  induction n, l using listChunks.induct with
  | case1 n => simp [listChunks]
  | case2 a l => omega
  | case3 n a l ih =>
    rw [listChunks]
    simp only [List.flatten_cons]
    rw [ih (by omega)]
    exact List.take_append_drop (n + 1) (a :: l)

/-- Every chunk produced at a positive size is non-empty. -/
theorem listChunks_ne_nil {α : Type} (n : Nat) (l : List α) (c : List α)
    (hc : c ∈ listChunks n l) : c ≠ [] := by
  induction n, l using listChunks.induct with
  | case1 n => simp [listChunks] at hc
  | case2 a l => simp [listChunks] at hc
  | case3 n a l ih =>
    rw [listChunks] at hc
    rcases List.mem_cons.mp hc with h1 | h2
    · rw [h1]
      simp [List.take_cons]
    · exact ih h2

/-- A non-empty batch under the well-behaved provider: one call, one vector
per text. -/
theorem embed_batch_mk (E : Text → Vec) (ts : List Text) (s : CacheState)
    (h : ts ≠ []) :
    embed_batch (mkProvider E) ts s
      = (ts.map E, { s with calls := s.calls ++ [ts] }) := by
  cases ts with
  | nil => exact absurd rfl h
  | cons a l => rfl

/-- The chunk fold of `_embed_texts` under the well-behaved provider. -/
theorem foldl_embed_batch (E : Text → Vec) :
    ∀ (chs : List (List Text)) (acc : List Vec) (s : CacheState),
      (∀ c ∈ chs, c ≠ []) →
      chs.foldl
        (fun acc chunk =>
          (acc.1 ++ (embed_batch (mkProvider E) chunk acc.2).1,
           (embed_batch (mkProvider E) chunk acc.2).2)) (acc, s)
      = (acc ++ chs.flatten.map E, { s with calls := s.calls ++ chs }) := by
  intro chs
  induction chs with
  | nil => intro acc s _; simp
  | cons c chs ih =>
    intro acc s h
    have hc : c ≠ [] := h c (by simp)
    simp only [List.foldl_cons, embed_batch_mk E c s hc]
    rw [ih (acc ++ c.map E) { s with calls := s.calls ++ [c] }
      (fun d hd => h d (by simp [hd]))]
    simp [List.append_assoc]

/-- Full behaviour of `_embed_texts` under the well-behaved provider:
one vector per text in order, and exactly the `embedCalls` requests. -/
theorem embed_texts_mk (E : Text → Vec) (cs : Nat) (ts : List Text)
    (s : CacheState) (h : 0 < cs) :
    embed_texts (mkProvider E) cs ts s
      = (ts.map E, { s with calls := s.calls ++ embedCalls cs ts }) := by
  cases hts : ts with
  | nil => simp [embed_texts, embedCalls]
  | cons a l =>
    rw [← hts]
    have he : ts.isEmpty = false := by rw [hts]; rfl
    have hne : ts ≠ [] := by rw [hts]; simp
    unfold embed_texts embedCalls
    simp only [he, Bool.false_eq_true, if_false]
    by_cases hle : ts.length ≤ cs
    · rw [if_pos hle, if_pos hle, embed_batch_mk E ts s hne]
    · rw [if_neg hle, if_neg hle]
      have hfold := foldl_embed_batch E (listChunks cs ts) [] s
        (fun c hc => listChunks_ne_nil cs ts c hc)
      rw [listChunks_join cs ts h] at hfold
      simpa using hfold
/-- `dropWhile` does nothing once it has already been applied. -/
theorem dropWhile_dropWhile {α : Type} (p : α → Bool) (l : List α) :
    (l.dropWhile p).dropWhile p = l.dropWhile p := by
  induction l with
  | nil => rfl
  | cons a l ih =>
    by_cases h : p a <;> simp [List.dropWhile_cons, h, ih]

/-- `dropWhile` never lengthens a list. -/
theorem length_dropWhile_le {α : Type} (p : α → Bool) (l : List α) :
    (l.dropWhile p).length ≤ l.length := by
  induction l with
  | nil => simp
  | cons a l ih =>
    by_cases h : p a <;> simp [List.dropWhile_cons, h]
    exact Nat.le_succ_of_le ih

/-- Left stripping is idempotent. -/
theorem lstrip_lstrip (t : Text) : lstrip (lstrip t) = lstrip t := by
  simp [lstrip, dropWhile_dropWhile]

/-- Right stripping is idempotent. -/
theorem rstrip_rstrip (t : Text) : rstrip (rstrip t) = rstrip t := by
  simp [rstrip, dropWhile_dropWhile]

/-- A list that survives left stripping starts with a non-space (or is empty),
so right stripping it keeps that property. -/
theorem lstrip_rstrip (t : Text) (h : lstrip t = t) :
    lstrip (rstrip t) = rstrip t := by
  obtain ⟨u, hu⟩ : ∃ u, t = rstrip t ++ u := by
    refine ⟨((t.reverse).takeWhile isWS).reverse, ?_⟩
    have h1 : List.takeWhile isWS t.reverse ++ List.dropWhile isWS t.reverse = t.reverse :=
      List.takeWhile_append_dropWhile isWS t.reverse
    have h2 : (List.dropWhile isWS t.reverse).reverse ++ (List.takeWhile isWS t.reverse).reverse = t := by
      have h3 := congrArg List.reverse h1
      rwa [List.reverse_append, List.reverse_reverse] at h3
    rw [rstrip]
    exact h2.symm
  cases hc : rstrip t with
  | nil => simp [lstrip]
  | cons x xs =>
    rw [hc] at hu
    have ht : t = x :: (xs ++ u) := by rw [hu]; simp
    have hx : isWS x = false := by
      by_contra hw
      have hw' : isWS x = true := by
        revert hw; cases isWS x <;> simp
      have hdrop : lstrip t = (xs ++ u).dropWhile isWS := by
        rw [lstrip, ht, List.dropWhile_cons, hw']
        simp
      have hle := length_dropWhile_le isWS (xs ++ u)
      have h1 : t.length = ((xs ++ u).dropWhile isWS).length := by
        rw [← hdrop, h]
      have h2 : t.length = xs.length + u.length + 1 := by
        rw [ht]; simp [List.length_append]
      rw [List.length_append] at hle
      omega
    simp [lstrip, List.dropWhile_cons, hx]

/-- Stripping is idempotent, as for Python `str.strip()`. -/
theorem pyStrip_idem (t : Text) : pyStrip (pyStrip t) = pyStrip t := by
  unfold pyStrip
  rw [lstrip_rstrip (lstrip t) (lstrip_lstrip t), rstrip_rstrip]

/-- Pandas index membership, unfolded. -/
theorem memIndex_iff (df : List CacheRow) (h : Text) :
    memIndex df h = true ↔ ∃ r ∈ df, r.text_hash = h := by
  simp [memIndex, List.any_eq_true, beq_iff_eq]

/-- Index membership distributes over frame concatenation. -/
theorem memIndex_append (df1 df2 : List CacheRow) (h : Text) :
    memIndex (df1 ++ df2) h = (memIndex df1 h || memIndex df2 h) := by
  simp [memIndex, List.any_append]

/-- The empty frame is consistent. -/
theorem Clean_nil (E : Text → Vec) : Clean E [] := by
  constructor <;> simp [CleanRow]

/-- On a consistent frame, a `loc` hit is the single ideal vector of the
looked-up content address. -/
theorem locEmb_clean (E : Text → Vec) (df : List CacheRow) (h : Text)
    (hc : Clean E df) (hm : memIndex df h = true) : locEmb df h = [E h] := by
  induction df with
  | nil => simp [memIndex] at hm
  | cons r df ih =>
    obtain ⟨hnd, hrows⟩ := hc
    rw [List.map_cons, List.nodup_cons] at hnd
    by_cases hr : r.text_hash = h
    · have hnone : df.filter (fun r2 => r2.text_hash == h) = [] := by
        rw [List.filter_eq_nil_iff]
        intro a ha
        simp only [beq_iff_eq]
        intro hh
        exact hnd.1 (by rw [hr, ← hh]; exact List.mem_map_of_mem _ ha)
      obtain ⟨h1, _h2, h3⟩ := hrows r (by simp)
      have hone : locEmb (r :: df) h = [r.embedding] := by
        simp [locEmb, List.filter_cons, hr, hnone]
      rw [hone, h3, ← h1, hr]
    · have hm2 : memIndex df h = true := by
        rcases (memIndex_iff (r :: df) h).mp hm with ⟨r2, hr2, hh⟩
        rcases List.mem_cons.mp hr2 with h1 | h2
        · exact absurd (h1 ▸ hh) hr
        · exact (memIndex_iff df h).mpr ⟨r2, h2, hh⟩
      have hrec := ih ⟨hnd.2, fun r2 hr2 => hrows r2 (by simp [hr2])⟩ hm2
      simpa [locEmb, List.filter_cons, hr] using hrec

/-- Zipping a list with its own image lists the graph of the function. -/
theorem zip_self_map {α β : Type} (g : α → β) (l : List α) :
    l.zip (l.map g) = l.map (fun a => (a, g a)) := by
  induction l with
  | nil => rfl
  | cons a l ih => simp [ih]

/-- The index the freshly inserted rows carry is the miss list itself
(stripped texts are their own content address). -/
theorem newRowsOf_hashes (E : Text → Vec) (ms : List Text)
    (hms : ∀ t ∈ ms, pyStrip t = t) :
    (newRowsOf E ms).map (fun r => r.text_hash) = ms := by
  unfold newRowsOf
  rw [List.map_map]
  conv_rhs => rw [← List.map_id ms]
  apply List.map_congr_left
  intro t ht
  simp [Function.comp, compute_string_hash, hms t ht]

/-- Inserting the rows for a duplicate-free, genuinely uncached miss list
preserves frame consistency. -/
theorem Clean_append (E : Text → Vec) (df : List CacheRow) (ms : List Text)
    (hc : Clean E df) (hms : ∀ t ∈ ms, pyStrip t = t) (hnd : ms.Nodup)
    (hmiss : ∀ t ∈ ms, memIndex df (compute_string_hash t) = false) :
    Clean E (df ++ newRowsOf E ms) := by
  obtain ⟨hndf, hrows⟩ := hc
  constructor
  · rw [List.map_append, List.nodup_append, newRowsOf_hashes E ms hms]
    refine ⟨hndf, hnd, ?_⟩
    intro a ha hb
    rcases List.mem_map.mp ha with ⟨r, hr, hra⟩
    have : memIndex df (compute_string_hash a) = false := hmiss a hb
    rw [compute_string_hash, hms a hb] at this
    have hmem : memIndex df a = true :=
      (memIndex_iff df a).mpr ⟨r, hr, hra⟩
    rw [hmem] at this
    simp at this
  · intro r hr
    rcases List.mem_append.mp hr with h1 | h2
    · exact hrows r h1
    · rcases List.mem_map.mp h2 with ⟨t, ht, hrt⟩
      have hst := hms t ht
      rw [← hrt]
      refine ⟨?_, ?_, ?_⟩ <;> simp [compute_string_hash, hst]


/-- Full behaviour of the result comprehension on a consistent frame under
the well-behaved provider: one singleton entry per (stripped) text, and one
extra provider call per text missing from the frame. -/
theorem gatherRows_mk (E : Text → Vec) (cs : Nat) (df : List CacheRow)
    (hcs : 0 < cs) (hc : Clean E df) :
    ∀ (ts : List Text) (s : CacheState), (∀ t ∈ ts, pyStrip t = t) →
    gatherRows (mkProvider E) cs df ((ts.map compute_string_hash).zip ts) s
      = (.ok (ts.map (fun t => [E (compute_string_hash t)])),
         { s with calls := s.calls ++
             (ts.filter (fun t =>
               !(memIndex df (compute_string_hash t)))).map (fun t => [t]) }) := by
  intro ts
  induction ts with
  | nil => intro s _; simp [gatherRows]
  | cons t ts ih =>
    intro s hstr
    have hstr_t : pyStrip t = t := hstr t (by simp)
    have hzip : (List.map compute_string_hash (t :: ts)).zip (t :: ts)
        = (compute_string_hash t, t) ::
          ((List.map compute_string_hash ts).zip ts) := by
      simp
    rw [hzip]
    simp only [gatherRows]
    by_cases hm : memIndex df (compute_string_hash t) = true
    · rw [if_pos hm, ih s (fun u hu => hstr u (by simp [hu]))]
      rw [locEmb_clean E df _ hc hm]
      simp [List.filter_cons, hm]
    · have hm2 : memIndex df (compute_string_hash t) = false := by
        cases hmm : memIndex df (compute_string_hash t)
        · rfl
        · exact absurd hmm hm
      rw [if_neg (by simp [hm2])]
      have hemb := embed_texts_mk E cs [t] s hcs
      have hcalls : embedCalls cs [t] = [[t]] := by
        simp [embedCalls]
        omega
      rw [hcalls] at hemb
      rw [hemb]
      simp only [List.map_cons, List.map_nil]
      rw [ih { s with calls := s.calls ++ [[t]] }
        (fun u hu => hstr u (by simp [hu]))]
      have hE : E t = E (compute_string_hash t) := by
        rw [compute_string_hash, hstr_t]
      simp [List.filter_cons, hm2, hE, List.append_assoc]

/-- Texts that have already been stripped once are fixed by stripping. -/
theorem stripped_of_mem_map (texts0 : List Text) :
    ∀ t ∈ texts0.map pyStrip, pyStrip t = t := by
  intro t ht
  rcases List.mem_map.mp ht with ⟨u, _, rfl⟩
  exact pyStrip_idem u

/-- Rewriting the per-text result through strip idempotence. -/
theorem map_hash_entry (E : Text → Vec) (texts0 : List Text) :
    (texts0.map pyStrip).map (fun t => [E (compute_string_hash t)])
      = texts0.map (fun t => [E (pyStrip t)]) := by
  rw [List.map_map]
  apply List.map_congr_left
  intro t _
  simp [Function.comp, compute_string_hash, pyStrip_idem]

/-- Full behaviour of `get_embeddings` with `update_cache=False` on a
consistent frame: per-text singleton results in input order, one on-the-fly
provider call per miss, and no change to the frame or the artifact. -/
theorem get_embeddings_false_mk (E : Text → Vec) (cs : Nat)
    (texts0 : List Text) (s0 : CacheState) (hcs : 0 < cs)
    (hc : Clean E s0.cache_df) :
    get_embeddings (mkProvider E) cs texts0 false s0
      = (.ok (texts0.map (fun t => [E (pyStrip t)])),
         { s0 with calls := s0.calls ++
             (missesOf s0.cache_df texts0).map (fun t => [t]) }) := by
  unfold get_embeddings missesOf
  simp only [Bool.and_false, Bool.false_eq_true, if_false]
  rw [gatherRows_mk E cs s0.cache_df hcs hc (texts0.map pyStrip) s0
    (stripped_of_mem_map texts0)]
  rw [map_hash_entry E texts0]

/-- Full behaviour of `get_embeddings` with `update_cache=True` on a
consistent frame, provided no uncached text repeats (after stripping) in the
request: per-text singleton results in input order; when there are misses,
the rows for them are appended to the frame, the artifact is rewritten to
the new frame, and the misses are sent to the provider in `embedCalls`
chunks; a miss-free request changes nothing. -/
theorem get_embeddings_true_mk (E : Text → Vec) (cs : Nat)
    (texts0 : List Text) (s0 : CacheState) (hcs : 0 < cs)
    (hc : Clean E s0.cache_df)
    (hnd : (missesOf s0.cache_df texts0).Nodup) :
    get_embeddings (mkProvider E) cs texts0 true s0
      = (.ok (texts0.map (fun t => [E (pyStrip t)])),
         if (missesOf s0.cache_df texts0).isEmpty then s0
         else
           { cache_df :=
               s0.cache_df ++ newRowsOf E (missesOf s0.cache_df texts0),
             saved := s0.cache_df ++ newRowsOf E (missesOf s0.cache_df texts0),
             calls :=
               s0.calls ++ embedCalls cs (missesOf s0.cache_df texts0) }) := by
  unfold get_embeddings
  unfold missesOf at hnd ⊢
  set ms := (texts0.map pyStrip).filter
    (fun t => !(memIndex s0.cache_df (compute_string_hash t))) with hmsdef
  have hstrms : ∀ t ∈ ms, pyStrip t = t := by
    intro t ht
    rw [hmsdef] at ht
    exact stripped_of_mem_map texts0 t (List.mem_filter.mp ht).1
  have hmiss : ∀ t ∈ ms, memIndex s0.cache_df (compute_string_hash t) = false := by
    intro t ht
    rw [hmsdef] at ht
    have := (List.mem_filter.mp ht).2
    simpa using this
  by_cases hempty : ms.isEmpty
  · have hnil : ms = [] := by
      cases hmm : ms
      · rfl
      · rw [hmm] at hempty; simp [List.isEmpty] at hempty
    simp only [hempty, Bool.not_true, Bool.false_and, Bool.false_eq_true, if_false,
      if_true]
    rw [gatherRows_mk E cs s0.cache_df hcs hc (texts0.map pyStrip) s0
      (stripped_of_mem_map texts0)]
    rw [map_hash_entry E texts0]
    rw [← hmsdef, hnil]
    simp
  · have hempty2 : ms.isEmpty = false := by
      cases hmm : ms.isEmpty
      · rfl
      · exact absurd hmm hempty
    simp only [hempty2, Bool.not_false, Bool.true_and, if_true, Bool.false_eq_true,
      if_false]
    rw [embed_texts_mk E cs ms s0 hcs]
    simp only []
    rw [if_pos (show (List.map E ms).length = ms.length by simp)]
    rw [zip_self_map E ms, List.map_map]
    have hentries : ms.map
        ((fun te : Text × Vec =>
            CacheRow.mk (compute_string_hash te.1) te.1 te.2) ∘
          (fun a => (a, E a))) = newRowsOf E ms := by
      rfl
    rw [hentries]
    have hclean2 : Clean E (s0.cache_df ++ newRowsOf E ms) :=
      Clean_append E s0.cache_df ms hc hstrms hnd hmiss
    have hhit : ∀ t ∈ texts0.map pyStrip,
        memIndex (s0.cache_df ++ newRowsOf E ms) (compute_string_hash t) = true := by
      intro t ht
      rw [memIndex_append]
      cases hmm : memIndex s0.cache_df (compute_string_hash t)
      · have htm : t ∈ ms := by
          rw [hmsdef]
          exact List.mem_filter.mpr ⟨ht, by simp [hmm]⟩
        have hnew : memIndex (newRowsOf E ms) (compute_string_hash t) = true := by
          apply (memIndex_iff _ _).mpr
          exact ⟨CacheRow.mk (compute_string_hash t) t (E t),
            List.mem_map.mpr ⟨t, htm, rfl⟩, rfl⟩
        simp [hnew]
      · simp
    rw [gatherRows_mk E cs (s0.cache_df ++ newRowsOf E ms) hcs hclean2
      (texts0.map pyStrip) _ (stripped_of_mem_map texts0)]
    have hfe : (texts0.map pyStrip).filter
        (fun t => !(memIndex (s0.cache_df ++ newRowsOf E ms)
          (compute_string_hash t))) = [] := by
      rw [List.filter_eq_nil_iff]
      intro t ht
      simp [hhit t ht]
    rw [hfe, map_hash_entry E texts0]
    simp

/-- Misses are stripped texts. -/
theorem missesOf_stripped (df : List CacheRow) (texts0 : List Text) :
    ∀ t ∈ missesOf df texts0, pyStrip t = t := by
  intro t ht
  exact stripped_of_mem_map texts0 t (List.mem_filter.mp ht).1

/-- Misses are genuinely uncached. -/
theorem missesOf_not_mem (df : List CacheRow) (texts0 : List Text) :
    ∀ t ∈ missesOf df texts0, memIndex df (compute_string_hash t) = false := by
  intro t ht
  have := (List.mem_filter.mp ht).2
  simpa using this

/-- A singleton request has a duplicate-free miss list. -/
theorem missesOf_single_nodup (df : List CacheRow) (t : Text) :
    (missesOf df [t]).Nodup := by
  unfold missesOf
  exact (List.nodup_singleton (pyStrip t)).filter _

/-- State facts after one updating call on a single text: the frame stays
consistent, the text's content address is now cached, and the call log grew
by exactly the requests for the misses. -/
theorem run_single_state (E : Text → Vec) (cs : Nat) (t1 : Text)
    (s0 : CacheState) (hcs : 0 < cs) (hc : Clean E s0.cache_df) :
    Clean E ((get_embeddings (mkProvider E) cs [t1] true s0).2).cache_df ∧
    memIndex ((get_embeddings (mkProvider E) cs [t1] true s0).2).cache_df
      (pyStrip t1) = true ∧
    ((get_embeddings (mkProvider E) cs [t1] true s0).2).calls
      = s0.calls ++ embedCalls cs (missesOf s0.cache_df [t1]) := by
  rw [get_embeddings_true_mk E cs [t1] s0 hcs hc (missesOf_single_nodup _ _)]
  by_cases hempty : (missesOf s0.cache_df [t1]).isEmpty
  · have hnil : missesOf s0.cache_df [t1] = [] := List.isEmpty_iff.mp hempty
    have hnil2 : ([t1].map pyStrip).filter
        (fun t => !(memIndex s0.cache_df (compute_string_hash t))) = [] := by
      have := hnil
      unfold missesOf at this
      exact this
    have hmem : memIndex s0.cache_df (pyStrip t1) = true := by
      have h2 := List.filter_eq_nil_iff.mp hnil2 (pyStrip t1) (by simp)
      simp only [compute_string_hash, pyStrip_idem, Bool.not_eq_true',
        Bool.not_eq_false] at h2
      exact h2
    refine ⟨?_, ?_, ?_⟩
    · simpa [hempty] using hc
    · simpa [hempty] using hmem
    · simp [hempty, hnil, embedCalls]
  · have hempty2 : (missesOf s0.cache_df [t1]).isEmpty = false := by
      cases hmm : (missesOf s0.cache_df [t1]).isEmpty
      · rfl
      · exact absurd hmm hempty
    have hclean2 : Clean E (s0.cache_df ++
        newRowsOf E (missesOf s0.cache_df [t1])) :=
      Clean_append E s0.cache_df (missesOf s0.cache_df [t1]) hc
        (missesOf_stripped _ _) (missesOf_single_nodup _ _)
        (missesOf_not_mem _ _)
    have hmem : memIndex (s0.cache_df ++
        newRowsOf E (missesOf s0.cache_df [t1])) (pyStrip t1) = true := by
      rw [memIndex_append]
      cases hmm : memIndex s0.cache_df (pyStrip t1)
      · have htm : pyStrip t1 ∈ missesOf s0.cache_df [t1] := by
          unfold missesOf
          refine List.mem_filter.mpr ⟨by simp, ?_⟩
          simp [compute_string_hash, pyStrip_idem, hmm]
        have hnew : memIndex (newRowsOf E (missesOf s0.cache_df [t1]))
            (pyStrip t1) = true := by
          apply (memIndex_iff _ _).mpr
          refine ⟨CacheRow.mk (compute_string_hash (pyStrip t1)) (pyStrip t1)
            (E (pyStrip t1)), List.mem_map.mpr ⟨pyStrip t1, htm, rfl⟩, ?_⟩
          simp [compute_string_hash, pyStrip_idem]
        simp [hnew]
      · simp
    refine ⟨?_, ?_, ?_⟩
    · simpa [hempty2] using hclean2
    · simpa [hempty2] using hmem
    · simp [hempty2]

/-- A second updating call whose (stripped) text is already cached leaves
the whole state — frame, artifact and call log — untouched. -/
theorem run_cached_noop (E : Text → Vec) (cs : Nat) (t2 : Text)
    (s1 : CacheState) (hcs : 0 < cs) (hc1 : Clean E s1.cache_df)
    (hmem : memIndex s1.cache_df (pyStrip t2) = true) :
    (get_embeddings (mkProvider E) cs [t2] true s1).2 = s1 := by
  have hms : missesOf s1.cache_df [t2] = [] := by
    unfold missesOf
    rw [List.filter_eq_nil_iff]
    intro a ha
    have : a = pyStrip t2 := by simpa using ha
    subst this
    simp [compute_string_hash, pyStrip_idem, hmem]
  rw [get_embeddings_true_mk E cs [t2] s1 hcs hc1 (by rw [hms]; simp)]
  rw [hms]
  simp

/-! #### Claims about the embedding cache -/

/-- C1 (amended): for every list of input texts, `get_embeddings` with
`update_cache=True` returns exactly one entry per input text, the i-th being
the single embedding of the i-th text after trimming, for any consistent
cache state, any cache/miss split and any chunking — provided no uncached
text occurs more than once (after trimming) in the request. (Without that
proviso the claim fails: see the counterexample.) -/
theorem C1_theorem (E : Text → Vec) (cs : Nat) (texts0 : List Text)
    (s0 : CacheState) (hcs : 0 < cs) (hc : Clean E s0.cache_df)
    (hnd : (missesOf s0.cache_df texts0).Nodup) :
    (get_embeddings (mkProvider E) cs texts0 true s0).1
      = .ok (texts0.map (fun t => [E (pyStrip t)])) := by
  rw [get_embeddings_true_mk E cs texts0 s0 hcs hc hnd]

/-- C1 witness: the amended theorem applied to two distinct texts on a fresh
cache with chunk size 4. -/
theorem C1_witness :
    (get_embeddings (mkProvider (fun u => [(u.length : Int)])) 4
      [txt " a ", txt "b"] true emptyCacheState).1
      = .ok ([txt " a ", txt "b"].map
          (fun t => [(fun u : Text => [(u.length : Int)]) (pyStrip t)])) :=
  C1_theorem (fun u => [(u.length : Int)]) 4 [txt " a ", txt "b"]
    emptyCacheState (by decide) (Clean_nil _) (by decide)

/-- C1 counterexample: the same uncached text twice in one request. Both
occurrences are embedded, two rows with the same index are appended, and the
pandas `loc` lookup then returns both rows for each occurrence: the result is
not one embedding vector per text, refuting the claim as stated at this
input. -/
theorem C1_counterexample :
    (get_embeddings (mkProvider (fun _ => [0])) 4 [txt "a", txt "a"] true
      emptyCacheState).1
      = .ok [[[0], [0]], [[0], [0]]] ∧
    (get_embeddings (mkProvider (fun _ => [0])) 4 [txt "a", txt "a"] true
      emptyCacheState).1
      ≠ .ok ([txt "a", txt "a"].map
          (fun t => [(fun _ : Text => ([0] : Vec)) (pyStrip t)])) := by
  constructor
  · decide
  · decide

/-- C2: texts equal after trimming share one hash; a text cached by one
updating call is a pure cache hit for any equal-after-trim text in a later
call, issuing zero provider calls; and two sequential `get([t])` calls from
a fresh cache issue exactly one provider call for `t`, not two. -/
theorem C2_theorem :
    (∀ t1 t2 : Text, pyStrip t1 = pyStrip t2 →
      compute_string_hash t1 = compute_string_hash t2) ∧
    (∀ (E : Text → Vec) (cs : Nat) (t1 t2 : Text) (s0 : CacheState),
      0 < cs → Clean E s0.cache_df → pyStrip t1 = pyStrip t2 →
      ((get_embeddings (mkProvider E) cs [t2] true
        ((get_embeddings (mkProvider E) cs [t1] true s0).2)).2).calls
        = ((get_embeddings (mkProvider E) cs [t1] true s0).2).calls) ∧
    (∀ (E : Text → Vec) (cs : Nat) (t : Text), 0 < cs →
      ((get_embeddings (mkProvider E) cs [t] true
        ((get_embeddings (mkProvider E) cs [t] true emptyCacheState).2)).2).calls
        = [[pyStrip t]]) := by
  refine ⟨?_, ?_, ?_⟩
  · intro t1 t2 h
    simp [compute_string_hash, h]
  · intro E cs t1 t2 s0 hcs hc h12
    obtain ⟨hc1, hmem1, _⟩ := run_single_state E cs t1 s0 hcs hc
    rw [h12] at hmem1
    rw [run_cached_noop E cs t2 _ hcs hc1 hmem1]
  · intro E cs t hcs
    obtain ⟨hc1, hmem1, hcalls1⟩ :=
      run_single_state E cs t emptyCacheState hcs (Clean_nil E)
    rw [run_cached_noop E cs t _ hcs hc1 hmem1, hcalls1]
    have hms : missesOf emptyCacheState.cache_df [t] = [pyStrip t] := by
      simp [missesOf, emptyCacheState, memIndex]
    rw [hms]
    simp [embedCalls, emptyCacheState]
    omega

/-- C2 witness: the three parts of the claim at concrete inputs — equal
hashes for `" a"` and `"a "`, zero provider calls for the second of two
equal-after-trim texts, and exactly one provider call across two sequential
`get(["x"])` runs. -/
theorem C2_witness :
    compute_string_hash (txt " a") = compute_string_hash (txt "a ") ∧
    ((get_embeddings (mkProvider (fun u => [(u.length : Int)])) 4 [txt "a "]
        true ((get_embeddings (mkProvider (fun u => [(u.length : Int)])) 4
          [txt " a"] true emptyCacheState).2)).2).calls
      = ((get_embeddings (mkProvider (fun u => [(u.length : Int)])) 4
          [txt " a"] true emptyCacheState).2).calls ∧
    ((get_embeddings (mkProvider (fun u => [(u.length : Int)])) 4 [txt "x"]
        true ((get_embeddings (mkProvider (fun u => [(u.length : Int)])) 4
          [txt "x"] true emptyCacheState).2)).2).calls
      = [[pyStrip (txt "x")]] :=
  ⟨C2_theorem.1 (txt " a") (txt "a ") (by decide),
   C2_theorem.2.1 (fun u => [(u.length : Int)]) 4 (txt " a") (txt "a ")
     emptyCacheState (by decide) (Clean_nil _) (by decide),
   C2_theorem.2.2 (fun u => [(u.length : Int)]) 4 (txt "x") (by decide)⟩

/-- C6 (amended): when the cache is being updated and the provider returns a
total number of vectors different from the number of uncached texts sent,
`get_embeddings` fails loudly with `ValueError` (from the `new_entries`
DataFrame construction) instead of mis-storing anything. (Vector dimension,
by contrast, is never validated — see the counterexample.) -/
theorem C6_theorem (p : Provider) (cs : Nat) (texts0 : List Text)
    (s0 : CacheState) (hne : missesOf s0.cache_df texts0 ≠ [])
    (hlen : (embed_texts p cs (missesOf s0.cache_df texts0) s0).1.length
      ≠ (missesOf s0.cache_df texts0).length) :
    (get_embeddings p cs texts0 true s0).1 = .error .valueError := by
  unfold get_embeddings
  unfold missesOf at hne hlen
  set ms := (texts0.map pyStrip).filter
    (fun t => !(memIndex s0.cache_df (compute_string_hash t))) with hmsdef
  have hempty2 : ms.isEmpty = false := by
    cases hmm : ms
    · exact absurd hmm hne
    · rfl
  simp only [hempty2, Bool.not_false, Bool.true_and, if_true]
  rw [if_neg hlen]

/-- C6 witness: a provider that returns no vectors at all for a one-text
request makes the updating call fail with `ValueError`. -/
theorem C6_witness :
    (get_embeddings (fun _ => []) 4 [txt "a"] true emptyCacheState).1
      = .error .valueError :=
  C6_theorem (fun _ => []) 4 [txt "a"] emptyCacheState (by decide) (by decide)

/-- C6 counterexample: a provider answering a one-text request with one
vector of dimension 2 instead of the configured `EMBEDDING_DIM = 1024`.
`get_embeddings` does not fail loudly: it silently caches and returns the
misshapen vector, refuting the dimension half of the claim as stated. -/
theorem C6_counterexample :
    (get_embeddings (mkProvider (fun _ => [0, 0])) MAX_CHUNK_SIZE [txt "a"]
      true emptyCacheState).1 = .ok [[[0, 0]]] ∧
    ([0, 0] : Vec).length ≠ EMBEDDING_DIM := by
  constructor
  · decide
  · decide

/-- C10: `get_embeddings` with `update_cache=False` still returns one
singleton embedding per input text (misses are computed on the fly) while
leaving both the in-memory frame and the on-disk artifact exactly as they
were. -/
theorem C10_theorem (E : Text → Vec) (cs : Nat) (texts0 : List Text)
    (s0 : CacheState) (hcs : 0 < cs) (hc : Clean E s0.cache_df) :
    (get_embeddings (mkProvider E) cs texts0 false s0).1
      = .ok (texts0.map (fun t => [E (pyStrip t)])) ∧
    ((get_embeddings (mkProvider E) cs texts0 false s0).2).cache_df
      = s0.cache_df ∧
    ((get_embeddings (mkProvider E) cs texts0 false s0).2).saved
      = s0.saved := by
  rw [get_embeddings_false_mk E cs texts0 s0 hcs hc]
  exact ⟨rfl, rfl, rfl⟩

/-- C10 witness: a no-update call on a fresh cache over two uncached texts,
each computed on the fly with the cache left empty. -/
theorem C10_witness :
    (get_embeddings (mkProvider (fun u => [(u.length : Int)])) 4
      [txt " a ", txt "b"] false emptyCacheState).1
      = .ok ([txt " a ", txt "b"].map
          (fun t => [(fun u : Text => [(u.length : Int)]) (pyStrip t)])) ∧
    ((get_embeddings (mkProvider (fun u => [(u.length : Int)])) 4
      [txt " a ", txt "b"] false emptyCacheState).2).cache_df
      = emptyCacheState.cache_df ∧
    ((get_embeddings (mkProvider (fun u => [(u.length : Int)])) 4
      [txt " a ", txt "b"] false emptyCacheState).2).saved
      = emptyCacheState.saved :=
  C10_theorem (fun u => [(u.length : Int)]) 4 [txt " a ", txt "b"]
    emptyCacheState (by decide) (Clean_nil _)

/-! #### Claims about the orchestrator -/

/-- The orchestrator's collection is the concatenation of the per-adapter
results after the failure boundary. -/
theorem foldl_append_markets (l : List (Text × List PooledMarket)) :
    ∀ acc : List PooledMarket,
      l.foldl (fun acc r => acc ++ r.2) acc = acc ++ (l.map (fun r => r.2)).flatten := by
  induction l with
  | nil => intro acc; simp
  | cons r l ih =>
    intro acc
    simp only [List.foldl_cons, List.map_cons, List.flatten_cons]
    rw [ih (acc ++ r.2)]
    simp [List.append_assoc]

/-- `_fetch_all_markets` unfolded to a flat concatenation. -/
theorem fetch_all_markets_eq (adapters : List AdapterOutcome) :
    fetch_all_markets adapters
      = (adapters.map (fun a => (fetch_platform_markets a).2)).flatten := by
  unfold fetch_all_markets
  rw [foldl_append_markets]
  rw [List.map_map]
  rfl

/-- C3: if an adapter's task raises anywhere in its lifecycle, the failure
boundary converts it into an empty result tagged with the platform name, the
orchestrator itself returns normally (it is a total function of the adapter
outcomes), and the final collection still contains every record of every
adapter that succeeded. -/
theorem C3_theorem :
    (∀ (name : Text) (e : PyError),
      fetch_platform_markets (name, .error e) = (name, [])) ∧
    (∀ (adapters : List AdapterOutcome) (name : Text)
      (ms : List PooledMarket), (name, Except.ok ms) ∈ adapters →
      ∀ m ∈ ms, m ∈ fetch_all_markets adapters) := by
  constructor
  · intro name e
    rfl
  · intro adapters name ms hmem m hm
    rw [fetch_all_markets_eq]
    apply List.mem_flatten.mpr
    refine ⟨ms, ?_, hm⟩
    apply List.mem_map.mpr
    exact ⟨(name, Except.ok ms), hmem, rfl⟩

/-- C3 witness: one failing and one succeeding adapter; the record of the
succeeding one survives, and the failing one contributes a tagged empty. -/
theorem C3_witness :
    fetch_platform_markets (txt "Metaculus", .error .valueError)
      = (txt "Metaculus", []) ∧
    sampleMarket ∈ fetch_all_markets
      [(txt "Manifold", .ok [sampleMarket]),
       (txt "Metaculus", .error .valueError)] :=
  ⟨C3_theorem.1 (txt "Metaculus") .valueError,
   C3_theorem.2
     [(txt "Manifold", .ok [sampleMarket]),
      (txt "Metaculus", .error .valueError)]
     (txt "Manifold") [sampleMarket] (by simp) sampleMarket (by simp)⟩

/-- C5: contrary to the claim, a run in which every adapter failed does not
return an empty well-formed collection: the empty market list builds a
column-less DataFrame, and `drop_duplicates(subset=["question"])` then
raises `KeyError`, so `fetch_markets_df` raises instead of returning. -/
theorem C5_theorem :
    fetch_all_markets (allFailedAdapters .valueError) = [] ∧
    fetch_markets_df (allFailedAdapters .valueError)
      = .error .keyError := by
  constructor
  · rfl
  · rfl

/-! #### Claims about the encrypted store -/

/-- C8 (amended): with `MOOTLIB_ENCRYPTION_KEY` absent every operation
raises `EncryptionKeyNotSetError` — never a silent no-op — and nothing is
ever written; but for the operations that take an input file the read of
that file happens before the key check, so the error precedes only the
output I/O, not all I/O. -/
theorem C8_theorem (ts : Nat) (content : Bytes) (inP outP : Text)
    (tok : FernetToken Bytes) (df : DfTable)
    (tok2 : FernetToken DfBuffer) (fmt : DataFrameFormat) :
    encrypt_file none ts content inP outP
      = (.error .encryptionKeyNotSet, [FileEvent.readFile inP]) ∧
    decrypt_file none tok inP outP
      = (.error .encryptionKeyNotSet, [FileEvent.readFile inP]) ∧
    encrypt_dataframe none ts df outP fmt
      = (.error .encryptionKeyNotSet, []) ∧
    decrypt_to_df none tok2 (some inP) fmt
      = (.error .encryptionKeyNotSet, [FileEvent.readFile inP]) :=
  ⟨rfl, rfl, rfl, rfl⟩

/-- C8 counterexample: with the key unset, `encrypt_file` raises the
configuration error only after reading the input file — the I/O trace at
the moment of the error is non-empty, refuting "raised before the operation
performs any I/O" as stated. -/
theorem C8_counterexample :
    encrypt_file none 0 [7] (txt "markets.csv") (txt "markets.csv.encrypted")
      = (.error .encryptionKeyNotSet,
         [FileEvent.readFile (txt "markets.csv")]) ∧
    [FileEvent.readFile (txt "markets.csv")] ≠ ([] : List FileEvent) := by
  constructor
  · rfl
  · decide

/-! #### Claim about the timestamp parser -/

/-- C7: `parse_datetime_flexible` returns a `datetime` input unchanged, and
on every string input returns a parsed value or `None` without raising; but
on the declared `None` input it raises `AttributeError` (from
`None.endswith`, which `except ValueError` does not catch), so the totality
claim fails exactly at `None`. -/
theorem C7_theorem (pZf pZ piso psp : Text → Option PyDatetime) :
    parse_datetime_flexible pZf pZ piso psp .pyNone
      = .error .attributeError ∧
    (∀ d : PyDatetime,
      parse_datetime_flexible pZf pZ piso psp (.dt d) = .ok (some d)) ∧
    (∀ s : Text, ∃ r : Option PyDatetime,
      parse_datetime_flexible pZf pZ piso psp (.str s) = .ok r) := by
  refine ⟨rfl, fun d => rfl, ?_⟩
  intro s
  by_cases h1 : endsWithZ s
  · by_cases h2 : s.contains '.'
    · have h2m : '.' ∈ s := by simpa using h2
      cases hm : pZf s with
      | some d =>
        exact ⟨some (setUTC d),
          by simp [parse_datetime_flexible, h1, h2m, hm]⟩
      | none =>
        exact ⟨psp s, by simp [parse_datetime_flexible, h1, h2m, hm]⟩
    · have h2m : '.' ∉ s := by simpa using h2
      cases hm : pZ s with
      | some d =>
        exact ⟨some (setUTC d),
          by simp [parse_datetime_flexible, h1, h2m, hm]⟩
      | none =>
        exact ⟨psp s, by simp [parse_datetime_flexible, h1, h2m, hm]⟩
  · by_cases h3 : ((s.drop 10).contains '+' || (s.drop 10).contains '-')
    · cases hm : piso s with
      | some d =>
        exact ⟨some d, by simp [parse_datetime_flexible, h1, h3, hm]⟩
      | none =>
        exact ⟨psp s, by simp [parse_datetime_flexible, h1, h3, hm]⟩
    · cases hm : piso s with
      | some d =>
        exact ⟨some d, by simp [parse_datetime_flexible, h1, h3, hm]⟩
      | none =>
        exact ⟨psp s, by simp [parse_datetime_flexible, h1, h3, hm]⟩

/-! #### Claim about scraper pagination -/

/-- The GJOpen page loop performs at most one page fetch per remaining page
number. -/
theorem gjLoop_le (fL : Nat → List Text) (fM : Text → Option GJOpenMarket)
    (minF : Nat) : ∀ (pages : List Nat) (acc : List GJOpenMarket),
    (gjLoop fL fM minF pages acc).2 ≤ pages.length := by
  intro pages
  induction pages with
  | nil => intro acc; simp [gjLoop]
  | cons p rest ih =>
    intro acc
    simp only [gjLoop, List.length_cons]
    by_cases h1 : (fL p).isEmpty
    · simp [h1]
    · simp only [h1, Bool.false_eq_true, if_false]
      by_cases h2 : (gjPageMarkets fM (fL p) acc).isEmpty
      · simp [h2]
      · simp only [h2, Bool.false_eq_true, if_false]
        by_cases h3 : (gjPageMarkets fM (fL p) acc).all
            (fun m => m.predictors_count < minF)
        · simp [h3]
        · simp only [h3, Bool.false_eq_true, if_false]
          have := ih (acc ++ gjPageMarkets fM (fL p) acc)
          omega

/-- C9 (amended): GJOpen's `fetch_markets` fetches at most
`MAX_PAGES = 20` pages and stops after the very first page when that page
has links but yields zero new markets, or when all its new markets fall
below the forecaster floor. Manifold's `fetch_markets`, by contrast, has no
fixed page cap: it paginates until the first empty (filtered) batch — at
most one request past the data the API holds — and the participation floor
has no influence on how many pages it fetches (it is applied only after
pagination; see the counterexample). -/
theorem C9_theorem :
    (∀ (fL : Nat → List Text) (fM : Text → Option GJOpenMarket) (minF : Nat),
      (gjopen_fetch_markets fL fM minF).2 ≤ GJ_MAX_PAGES) ∧
    (∀ (fL : Nat → List Text) (fM : Text → Option GJOpenMarket) (minF : Nat),
      fL 1 ≠ [] → gjPageMarkets fM (fL 1) [] = [] →
      (gjopen_fetch_markets fL fM minF).2 = 1) ∧
    (∀ (fL : Nat → List Text) (fM : Text → Option GJOpenMarket) (minF : Nat),
      fL 1 ≠ [] → gjPageMarkets fM (fL 1) [] ≠ [] →
      (∀ m ∈ gjPageMarkets fM (fL 1) [], m.predictors_count < minF) →
      (gjopen_fetch_markets fL fM minF).2 = 1) ∧
    (∀ (oo : Bool) (batches : List (List RawManifoldMarket)),
      (mfLoop oo batches).2 ≤ batches.length + 1) ∧
    (∀ (batches : List (List RawManifoldMarket))
      (det : Text → Option ManifoldMarket) (oo : Bool)
      (minB minB2 : Nat) (minV : Int),
      (manifold_fetch_markets batches det oo minB minV).2
        = (manifold_fetch_markets batches det oo minB2 minV).2) := by
  have hrange : List.range' 1 GJ_MAX_PAGES
      = 1 :: List.range' 2 (GJ_MAX_PAGES - 1) := by decide
  refine ⟨?_, ?_, ?_, ?_, ?_⟩
  · intro fL fM minF
    have := gjLoop_le fL fM minF (List.range' 1 GJ_MAX_PAGES) []
    simpa [gjopen_fetch_markets] using this
  · intro fL fM minF h1 h2
    unfold gjopen_fetch_markets
    rw [hrange]
    simp only [gjLoop]
    have h1e : (fL 1).isEmpty = false := by
      cases hmm : fL 1
      · exact absurd hmm h1
      · rfl
    have h2e : (gjPageMarkets fM (fL 1) []).isEmpty = true := by
      rw [h2]
      rfl
    simp [h1e, h2e]
  · intro fL fM minF h1 h2 h3
    unfold gjopen_fetch_markets
    rw [hrange]
    simp only [gjLoop]
    have h1e : (fL 1).isEmpty = false := by
      cases hmm : fL 1
      · exact absurd hmm h1
      · rfl
    have h2e : (gjPageMarkets fM (fL 1) []).isEmpty = false := by
      cases hmm : gjPageMarkets fM (fL 1) []
      · exact absurd hmm h2
      · rfl
    have h3e : (gjPageMarkets fM (fL 1) []).all
        (fun m => m.predictors_count < minF) = true := by
      rw [List.all_eq_true]
      intro m hm
      simpa using h3 m hm
    simp [h1e, h2e, h3e]
  · intro oo batches
    induction batches with
    | nil => simp [mfLoop]
    | cons b rest ih =>
      simp only [mfLoop, List.length_cons]
      by_cases hb : ((if oo then b.filter (fun m => !m.isResolved) else b)).isEmpty
      · simp [hb]
      · simp only [hb, Bool.false_eq_true, if_false]
        omega
  · intro batches det oo minB minB2 minV
    unfold manifold_fetch_markets
    by_cases h : (mfLoop oo batches).1.isEmpty <;> simp [h]

/-- C9 witness: the amended theorem at concrete fetchers — the page bound, a
zero-new-items first page, an all-below-floor first page, the Manifold
request bound on two batches, and floor-independence of the Manifold page
count. -/
theorem C9_witness :
    (gjopen_fetch_markets (fun _ => [txt "q1"]) (fun _ => none)
      GJ_MIN_FORECASTERS).2 ≤ GJ_MAX_PAGES ∧
    (gjopen_fetch_markets (fun _ => [txt "q1"]) (fun _ => none)
      GJ_MIN_FORECASTERS).2 = 1 ∧
    (gjopen_fetch_markets (fun _ => [txt "q1"])
      (fun _ => some ⟨txt "gjopen_1", txt "q", 1⟩) GJ_MIN_FORECASTERS).2 = 1 ∧
    (mfLoop true [[lowRawA], [lowRawB]]).2 ≤ 3 ∧
    (manifold_fetch_markets [[lowRawA], [lowRawB]] (fun _ => none) true
      MANIFOLD_MIN_FORECASTERS 0).2
      = (manifold_fetch_markets [[lowRawA], [lowRawB]] (fun _ => none) true
        0 0).2 :=
  ⟨C9_theorem.1 (fun _ => [txt "q1"]) (fun _ => none) GJ_MIN_FORECASTERS,
   C9_theorem.2.1 (fun _ => [txt "q1"]) (fun _ => none) GJ_MIN_FORECASTERS
     (by decide) (by decide),
   C9_theorem.2.2.1 (fun _ => [txt "q1"])
     (fun _ => some ⟨txt "gjopen_1", txt "q", 1⟩) GJ_MIN_FORECASTERS
     (by decide) (by decide) (by decide),
   C9_theorem.2.2.2.1 true [[lowRawA], [lowRawB]],
   C9_theorem.2.2.2.2 [[lowRawA], [lowRawB]] (fun _ => none) true
     MANIFOLD_MIN_FORECASTERS 0 0⟩

/-- C9 counterexample: a Manifold run whose first page consists entirely of
markets below the participation floor still fetches the second page and the
terminating empty page — three page requests, not one — refuting "stops
fetching deeper pages as soon as every item on a page falls below the
configured participation floor" for this adapter. -/
theorem C9_counterexample :
    (∀ m ∈ [lowRawA], m.uniqueBettorCount < MANIFOLD_MIN_FORECASTERS) ∧
    (manifold_fetch_markets [[lowRawA], [lowRawB]] (fun _ => none) true
      MANIFOLD_MIN_FORECASTERS 0).2 = 3 ∧
    (3 : Nat) ≠ 1 := by
  refine ⟨?_, ?_, ?_⟩
  · decide
  · decide
  · decide

end Mootlib
